import Mathlib

/-!
Shallow embedding of the Face Recognition Attendance System (src/main.py)
and proofs of the specification's claims about it.

The camera, rendering and face_recognition collaborators are external
libraries; they appear as abstract parameters (a distance function for the
descriptor space, detect/encode functions for the gallery builder), exactly
at the interface the source calls them.  Files are modelled as parsed row
lists; `none` stands for a missing file.
-/

namespace FRAS

/-! ### Matcher: src/main.py lines 167-176 -/

/-- Minimum of a nonempty list of distances (0 on the empty list, never used
there). -/
def minL : List ℚ → ℚ
  | [] => 0
  | [x] => x
  | x :: y :: xs => min x (minL (y :: xs))

/-- Modelled from the numpy collaborator: `np.argmin` returns the first index
at which the minimum value occurs. -/
def argmin : List ℚ → Nat
  | [] => 0
  | [_] => 0
  | x :: y :: xs => if x ≤ minL (y :: xs) then 0 else argmin (y :: xs) + 1

/-- `face_recognition.face_distance(known_encodings, face_encoding)`
(src/main.py line 172): the list of distances from the query descriptor to
every gallery descriptor, for an abstract descriptor distance `dist`. -/
def galleryDistances {α : Type} (dist : α → α → ℚ) (encs : List α) (q : α) : List ℚ :=
  encs.map (fun e => dist e q)

/-- Per-descriptor label resolution, src/main.py lines 168-176.
`compare_faces` is the library's pointwise `distance ≤ tolerance`, so the test
`matches[best_match_index]` is `distances[best] ≤ tolerance`; `best` is
numpy's first-occurrence argmin.  The gallery-empty guard is
`if known_encodings:`. -/
def resolveName {α : Type} (dist : α → α → ℚ) (encs : List α) (labels : List String)
    (q : α) (tol : ℚ) : String :=
  if encs.isEmpty then "Unknown"
  else
    let distances := galleryDistances dist encs q
    let best := argmin distances
    if distances.getD best 0 ≤ tol then labels.getD best "" else "Unknown"

/-! ### Attendance data model -/

/-- One attendance snapshot value: the dict
`{"date": _, "first_seen": _, "last_seen": _}` of src/main.py. -/
structure Record where
  date : String
  first_seen : String
  last_seen : String
deriving DecidableEq, Repr

/-- The in-memory attendance dict `attendance_today : Dict[str, Dict[str, str]]`,
as an insertion-ordered association list (Python dict iteration order). -/
abbrev Snapshot := List (String × Record)

/-- Python dict lookup `att.get(name)`. -/
def dictGet : Snapshot → String → Option Record
  | [], _ => none
  | (k, v) :: rest, n => if k = n then some v else dictGet rest n

/-- Python dict assignment `att[name] = r`: replaces in place if the key is
present, else appends (insertion order preserved). -/
def dictSet : Snapshot → String → Record → Snapshot
  | [], n, r => [(n, r)]
  | (k, v) :: rest, n, r => if k = n then (k, r) :: rest else (k, v) :: dictSet rest n r

/-- One CSV data row of the attendance file. -/
structure Row where
  date : String
  name : String
  first_seen : String
  last_seen : String
deriving DecidableEq, Repr

/-- The snapshot value read off a CSV row (src/main.py lines 96-100). -/
def rowRecord (row : Row) : Record :=
  ⟨row.date, row.first_seen, row.last_seen⟩

/-- `read_today_attendance` (src/main.py lines 86-101): a missing file gives
the empty snapshot; otherwise every row dated `today` is keyed into the dict
in file order. -/
def readToday (file : Option (List Row)) (today : String) : Snapshot :=
  match file with
  | none => []
  | some rows =>
    rows.foldl
      (fun att row =>
        if row.date = today then dictSet att row.name (rowRecord row) else att)
      []

/-- The rows written for the snapshot (src/main.py lines 114-120), in dict
iteration order. -/
def snapRows (att : Snapshot) : List Row :=
  att.map (fun e => ⟨e.2.date, e.1, e.2.first_seen, e.2.last_seen⟩)

/-- `write_attendance_snapshot` (src/main.py lines 104-124): keep every
existing row whose date is not today, then append one row per snapshot entry;
the result is the file's new full row list. -/
def writeSnapshot (file : Option (List Row)) (att : Snapshot) (today : String) : List Row :=
  (match file with
   | none => []
   | some rows => rows.filter (fun r => r.date ≠ today)) ++ snapRows att

/-- Iterated writes, one per frame (src/main.py line 209). -/
def writeSeq (file : Option (List Row)) (snaps : List Snapshot) (today : String) :
    Option (List Row) :=
  snaps.foldl (fun f s => some (writeSnapshot f s today)) file

/-- Attendance update for one name (src/main.py lines 184-192): the branch is
Python's truthiness test `if not first_seen` on
`attendance_today.get(name, {}).get("first_seen")`. -/
def updateAttendance (att : Snapshot) (name now today : String) : Snapshot :=
  match dictGet att name with
  | none => dictSet att name ⟨today, now, now⟩
  | some r =>
    if r.first_seen = "" then dictSet att name ⟨today, now, now⟩
    else dictSet att name ⟨r.date, r.first_seen, now⟩

/-- The per-frame loop over resolved names (src/main.py lines 181-192):
`"Unknown"` is skipped. -/
def processNames (att : Snapshot) (names : List String) (now today : String) : Snapshot :=
  names.foldl (fun a n => if n = "Unknown" then a else updateAttendance a n now today) att

/-- A fixed name recognized once per frame over successive frames, with the
frame timestamps listed in order. -/
def updateSeq (att : Snapshot) (name : String) (ts : List String) (today : String) : Snapshot :=
  ts.foldl (fun a t => processNames a [name] t today) att

/-! ### Gallery builder: src/main.py lines 25-75 -/

/-- One candidate image file: its path components relative to the gallery
directory (filename last), the filename stem, and the decoded image. -/
structure ImageFile (α : Type) where
  parts : List String
  stem : String
  image : α

/-- `extract_label_from_path` (src/main.py lines 35-45): parent-directory name
when nested, else the filename stem. -/
def extractLabel {α : Type} (img : ImageFile α) : String :=
  if 2 ≤ img.parts.length then img.parts.getD (img.parts.length - 2) "" else img.stem

/-- The gallery directory: whether it exists, and the candidate image files
under it (already filtered to image extensions, as `list_image_files` does). -/
structure GalleryFS (α : Type) where
  dirExists : Bool
  images : List (ImageFile α)

/-- `load_known_faces` (src/main.py lines 48-75).  `detect image upsample model`
and `encode image locations` are the face_recognition collaborators; the
source calls detection with `model="hog"` and the library's default upsample 1.
A missing directory is created empty; images with no detected face or no
encoding are skipped. -/
def loadKnownFaces {α β γ : Type} (detect : α → Nat → String → List γ)
    (encode : α → List γ → List β) (fs : GalleryFS α) :
    GalleryFS α × List β × List String :=
  if fs.dirExists = false then (⟨true, []⟩, [], [])
  else if fs.images.isEmpty then (fs, [], [])
  else
    let r := fs.images.foldl
      (fun (acc : List β × List String) img =>
        let locs := detect img.image 1 "hog"
        if locs.isEmpty then acc
        else
          match encode img.image locs with
          | [] => acc
          | e :: _ => (acc.1 ++ [e], acc.2 ++ [extractLabel img]))
      ([], [])
    (fs, r.1, r.2)

/-- The parsed command-line configuration (src/main.py lines 13-22). -/
structure Config where
  knownFaces : String
  camera : Int
  tolerance : ℚ
  upsample : Nat
  model : String
  attendanceFile : String
  resize : ℚ

/-- Gallery construction as invoked at startup (src/main.py lines 130-134):
`load_known_faces(known_dir)` receives only the directory; no field of the
configuration besides the directory reaches it. -/
def startupGallery {α β γ : Type} (detect : α → Nat → String → List γ)
    (encode : α → List γ → List β) (cfg : Config) (fs : GalleryFS α) :
    GalleryFS α × List β × List String :=
  loadKnownFaces detect encode fs

/-! ### Dictionary lemmas -/

theorem dictGet_dictSet (att : Snapshot) (n m : String) (r : Record) :
    dictGet (dictSet att n r) m = if m = n then some r else dictGet att m := by
  induction att with
  | nil =>
    simp only [dictSet, dictGet]
    by_cases h : n = m
    · subst h; simp
    · simp [h, Ne.symm h]
  | cons kv rest ih =>
    obtain ⟨k, v⟩ := kv
    simp only [dictSet]
    by_cases hkn : k = n
    · subst hkn
      simp only [if_pos rfl, dictGet]
      by_cases h : k = m
      · subst h; simp
      · simp [h, Ne.symm h]
    · simp only [if_neg hkn, dictGet]
      by_cases h : k = m
      · subst h
        simp [hkn]
      · simp [h, ih]

theorem processNames_singleton (att : Snapshot) (name now today : String) :
    processNames att [name] now today
      = if name = "Unknown" then att else updateAttendance att name now today := by
  simp [processNames]

/-- C2 counterexample: the snapshot holds an entry for "alice" dated today
(2023-01-02) whose first_seen is empty (as a malformed CSV row seeds it); the
claim demands that an existing today-entry keep its first_seen and only
last_seen change, but the code's truthiness test `if not first_seen` replaces
the whole entry, so the outcome the claim requires does not hold. -/
theorem attendance_update_claim_cex :
    dictGet [("alice", ⟨"2023-01-02", "", "2023-01-02T08:00:00"⟩)] "alice"
      = some ⟨"2023-01-02", "", "2023-01-02T08:00:00"⟩ ∧
    dictGet (processNames [("alice", ⟨"2023-01-02", "", "2023-01-02T08:00:00"⟩)]
        ["alice"] "2023-01-02T10:00:00" "2023-01-02") "alice"
      = some ⟨"2023-01-02", "2023-01-02T10:00:00", "2023-01-02T10:00:00"⟩ ∧
    dictGet (processNames [("alice", ⟨"2023-01-02", "", "2023-01-02T08:00:00"⟩)]
        ["alice"] "2023-01-02T10:00:00" "2023-01-02") "alice"
      ≠ some ⟨"2023-01-02", "", "2023-01-02T10:00:00"⟩ := by
  refine ⟨by decide, by decide, by decide⟩

/-- C2 (amended): per recognized name per frame, "Unknown" never creates or
updates an entry; entries of other names are untouched; the branch is on the
name's entry having a nonempty first_seen: with no entry, or an entry whose
first_seen is empty, a fresh entry (date = today, first_seen = last_seen = now)
is written, and with an entry whose first_seen is nonempty — whatever its
date — only last_seen becomes now. -/
theorem attendance_update_rule (att : Snapshot) (name now today : String)
    (hname : name ≠ "Unknown") :
    (processNames att ["Unknown"] now today = att) ∧
    (∀ m, m ≠ name → dictGet (processNames att [name] now today) m = dictGet att m) ∧
    (dictGet att name = none →
      dictGet (processNames att [name] now today) name = some ⟨today, now, now⟩) ∧
    (∀ r, dictGet att name = some r → r.first_seen = "" →
      dictGet (processNames att [name] now today) name = some ⟨today, now, now⟩) ∧
    (∀ r, dictGet att name = some r → r.first_seen ≠ "" →
      dictGet (processNames att [name] now today) name
        = some ⟨r.date, r.first_seen, now⟩) := by
  refine ⟨by simp [processNames], ?_, ?_, ?_, ?_⟩
  · intro m hm
    rw [processNames_singleton, if_neg hname]
    unfold updateAttendance
    cases h : dictGet att name with
    | none => rw [dictGet_dictSet]; simp [hm]
    | some r =>
      by_cases hr : r.first_seen = "" <;> simp [hr, dictGet_dictSet, hm]
  · intro h
    rw [processNames_singleton, if_neg hname]
    simp [updateAttendance, h, dictGet_dictSet]
  · intro r h hr
    rw [processNames_singleton, if_neg hname]
    simp [updateAttendance, h, hr, dictGet_dictSet]
  · intro r h hr
    rw [processNames_singleton, if_neg hname]
    simp [updateAttendance, h, hr, dictGet_dictSet]

/-- Witness for the amended C2 rule at a concrete snapshot: one existing entry
for "bob" with a nonempty first_seen, updated at 10:00:00. -/
theorem attendance_update_rule_witness :
    (("bob" : String) ≠ "Unknown") ∧
    ((processNames [("bob", ⟨"2023-01-02", "2023-01-02T09:00:00", "2023-01-02T09:30:00"⟩)]
        ["Unknown"] "2023-01-02T10:00:00" "2023-01-02"
        = [("bob", ⟨"2023-01-02", "2023-01-02T09:00:00", "2023-01-02T09:30:00"⟩)]) ∧
      (∀ m, m ≠ "bob" →
        dictGet (processNames
            [("bob", ⟨"2023-01-02", "2023-01-02T09:00:00", "2023-01-02T09:30:00"⟩)]
            ["bob"] "2023-01-02T10:00:00" "2023-01-02") m
          = dictGet [("bob", ⟨"2023-01-02", "2023-01-02T09:00:00", "2023-01-02T09:30:00"⟩)] m) ∧
      (dictGet [("bob", ⟨"2023-01-02", "2023-01-02T09:00:00", "2023-01-02T09:30:00"⟩)] "bob"
          = none →
        dictGet (processNames
            [("bob", ⟨"2023-01-02", "2023-01-02T09:00:00", "2023-01-02T09:30:00"⟩)]
            ["bob"] "2023-01-02T10:00:00" "2023-01-02") "bob"
          = some ⟨"2023-01-02", "2023-01-02T10:00:00", "2023-01-02T10:00:00"⟩) ∧
      (∀ r, dictGet [("bob", ⟨"2023-01-02", "2023-01-02T09:00:00", "2023-01-02T09:30:00"⟩)] "bob"
          = some r → r.first_seen = "" →
        dictGet (processNames
            [("bob", ⟨"2023-01-02", "2023-01-02T09:00:00", "2023-01-02T09:30:00"⟩)]
            ["bob"] "2023-01-02T10:00:00" "2023-01-02") "bob"
          = some ⟨"2023-01-02", "2023-01-02T10:00:00", "2023-01-02T10:00:00"⟩) ∧
      (∀ r, dictGet [("bob", ⟨"2023-01-02", "2023-01-02T09:00:00", "2023-01-02T09:30:00"⟩)] "bob"
          = some r → r.first_seen ≠ "" →
        dictGet (processNames
            [("bob", ⟨"2023-01-02", "2023-01-02T09:00:00", "2023-01-02T09:30:00"⟩)]
            ["bob"] "2023-01-02T10:00:00" "2023-01-02") "bob"
          = some ⟨r.date, r.first_seen, "2023-01-02T10:00:00"⟩)) :=
  ⟨by decide,
    attendance_update_rule
      [("bob", ⟨"2023-01-02", "2023-01-02T09:00:00", "2023-01-02T09:30:00"⟩)]
      "bob" "2023-01-02T10:00:00" "2023-01-02" (by decide)⟩

/-! ### read_today_attendance lemmas -/

/-- The fold of `read_today_attendance` ignores rows whose date is not today. -/
theorem readFold_filter (today : String) (rows : List Row) (acc : Snapshot) :
    rows.foldl
        (fun att row => if row.date = today then dictSet att row.name (rowRecord row) else att)
        acc
      = (rows.filter (fun r => r.date = today)).foldl
          (fun att row => if row.date = today then dictSet att row.name (rowRecord row) else att)
          acc := by
  induction rows generalizing acc with
  | nil => simp
  | cons row rest ih =>
    by_cases h : row.date = today
    · simp [List.filter_cons, h, ih]
    · simp [List.filter_cons, h, ih]

/-- The fold of `read_today_attendance` keys each name to the last today-row of
that name, leaving other keys as in the accumulator. -/
theorem readFold_dictGet (today : String) (rows : List Row) (acc : Snapshot) (n : String) :
    dictGet
        (rows.foldl
          (fun att row => if row.date = today then dictSet att row.name (rowRecord row) else att)
          acc) n
      = (match (rows.filter (fun row => row.date = today ∧ row.name = n)).getLast? with
         | some row => some (rowRecord row)
         | none => dictGet acc n) := by
  induction rows using List.reverseRecOn with
  | nil => simp
  | append_singleton rs row ih =>
    rw [List.foldl_append, List.filter_append]
    by_cases h1 : row.date = today
    · by_cases h2 : row.name = n
      · simp only [List.foldl_cons, List.foldl_nil, if_pos h1]
        rw [dictGet_dictSet]
        have hp : (fun row : Row => decide (row.date = today ∧ row.name = n)) row = true := by
          simp [h1, h2]
        simp only [List.filter_cons, List.filter_nil, hp, if_pos]
        rw [List.getLast?_concat]
        simp [h2]
      · simp only [List.foldl_cons, List.foldl_nil, if_pos h1]
        rw [dictGet_dictSet]
        have hp : (fun row : Row => decide (row.date = today ∧ row.name = n)) row = false := by
          simp [h2]
        simp only [List.filter_cons, List.filter_nil, hp]
        simp only [Bool.false_eq_true, if_false, List.append_nil]
        rw [if_neg (fun he => h2 (he.symm))]
        exact ih
    · simp only [List.foldl_cons, List.foldl_nil, if_neg h1]
      have hp : (fun row : Row => decide (row.date = today ∧ row.name = n)) row = false := by
        simp [h1]
      simp only [List.filter_cons, List.filter_nil, hp]
      simp only [Bool.false_eq_true, if_false, List.append_nil]
      exact ih

/-- C7: `read_today_attendance` on a missing file returns the empty snapshot
rather than an error; on an existing file it depends only on the rows dated
today, every snapshot entry comes from a today-row of that name, and every
today-row's name is keyed in the snapshot. -/
theorem load_today_spec (today : String) :
    (readToday none today = []) ∧
    (∀ rows, readToday (some rows) today
        = readToday (some (rows.filter (fun r => r.date = today))) today) ∧
    (∀ rows n r, dictGet (readToday (some rows) today) n = some r →
      ∃ row ∈ rows, row.date = today ∧ row.name = n ∧ r = rowRecord row) ∧
    (∀ rows row, row ∈ rows → row.date = today →
      (dictGet (readToday (some rows) today) row.name).isSome = true) := by
  refine ⟨rfl, ?_, ?_, ?_⟩
  · intro rows
    simp only [readToday]
    exact readFold_filter today rows []
  · intro rows n r h
    rw [readToday, readFold_dictGet] at h
    cases hl : (rows.filter (fun row => row.date = today ∧ row.name = n)).getLast? with
    | none => rw [hl] at h; simp [dictGet] at h
    | some row =>
      rw [hl] at h
      obtain ⟨hne, heq⟩ := List.mem_getLast?_eq_getLast hl
      have hmem : row ∈ rows.filter (fun row => row.date = today ∧ row.name = n) := by
        rw [heq]; exact List.getLast_mem hne
      rw [List.mem_filter] at hmem
      obtain ⟨hrow, hp⟩ := hmem
      simp only [decide_eq_true_eq] at hp
      exact ⟨row, hrow, hp.1, hp.2, by simpa using h.symm⟩
  · intro rows row hrow hdate
    rw [readToday, readFold_dictGet]
    have hmem : row ∈ rows.filter (fun r => r.date = today ∧ r.name = row.name) := by
      rw [List.mem_filter]
      exact ⟨hrow, by simp [hdate]⟩
    have hne : rows.filter (fun r => r.date = today ∧ r.name = row.name) ≠ [] :=
      List.ne_nil_of_mem hmem
    rw [List.getLast?_eq_getLast_of_ne_nil hne]
    simp

/-- C9: when the file holds several today-rows of one name, the seeded
snapshot keys that name to the field values of the last such row in file
order (later duplicates silently overwrite earlier ones); names with no
today-row are absent. -/
theorem load_today_last_wins (today : String) (rows : List Row) (n : String) :
    dictGet (readToday (some rows) today) n
      = ((rows.filter (fun row => row.date = today ∧ row.name = n)).getLast?).map rowRecord := by
  rw [readToday, readFold_dictGet]
  cases (rows.filter (fun row => row.date = today ∧ row.name = n)).getLast? with
  | none => simp [dictGet]
  | some row => simp

/-! ### write_attendance_snapshot lemmas -/

theorem snapRows_names (att : Snapshot) :
    (snapRows att).map Row.name = att.map Prod.fst := by
  simp [snapRows, List.map_map]

theorem filter_today_of_filter_ne (rows : List Row) (today : String) :
    (rows.filter (fun r => r.date ≠ today)).filter (fun r => r.date = today) = [] := by
  rw [List.filter_filter]
  refine List.filter_eq_nil_iff.mpr ?_
  intro r _
  by_cases h : r.date = today <;> simp [h]

/-- The today-rows of a written file are the snapshot's today-rows, whatever
the prior file held. -/
theorem writeSnapshot_filter_today (file : Option (List Row)) (att : Snapshot) (today : String) :
    (writeSnapshot file att today).filter (fun r => r.date = today)
      = (snapRows att).filter (fun r => r.date = today) := by
  cases file with
  | none => rfl
  | some rows =>
    simp only [writeSnapshot]
    rw [List.filter_append, filter_today_of_filter_ne]
    rfl

/-- The non-today rows of a written file are exactly the prior file's
non-today rows, when the snapshot is dated today. -/
theorem writeSnapshot_filter_ne (file : Option (List Row)) (att : Snapshot) (today : String)
    (hdates : ∀ e ∈ att, (e.2).date = today) :
    (writeSnapshot file att today).filter (fun r => r.date ≠ today)
      = (file.getD []).filter (fun r => r.date ≠ today) := by
  have hsnap : (snapRows att).filter (fun r => r.date ≠ today) = [] := by
    refine List.filter_eq_nil_iff.mpr ?_
    intro r hr
    rw [snapRows, List.mem_map] at hr
    obtain ⟨e, he, rfl⟩ := hr
    simp [hdates e he]
  cases file with
  | none => simpa [writeSnapshot] using hsnap
  | some rows =>
    simp only [writeSnapshot, Option.getD]
    rw [List.filter_append, hsnap, List.append_nil, List.filter_filter]
    refine List.filter_congr ?_
    intro r _
    by_cases h : r.date = today <;> simp [h]

theorem snapRows_filter_today (att : Snapshot) (today : String)
    (hdates : ∀ e ∈ att, (e.2).date = today) :
    (snapRows att).filter (fun r => r.date = today) = snapRows att := by
  refine List.filter_eq_self.mpr ?_
  intro r hr
  rw [snapRows, List.mem_map] at hr
  obtain ⟨e, he, rfl⟩ := hr
  simp [hdates e he]

/-- C3: after a completed `write_attendance_snapshot` on a name-keyed,
today-dated snapshot, the file holds at most one row per (today, name) pair,
regardless of what the file held before. -/
theorem write_today_rows_nodup (file : Option (List Row)) (att : Snapshot) (today : String)
    (hkeys : (att.map Prod.fst).Nodup) (hdates : ∀ e ∈ att, (e.2).date = today) :
    (((writeSnapshot file att today).filter (fun r => r.date = today)).map Row.name).Nodup := by
  rw [writeSnapshot_filter_today, snapRows_filter_today att today hdates, snapRows_names]
  exact hkeys

/-- Witness for C3: a file with a stale bob row and a duplicated alice row,
rewritten from a one-entry snapshot. -/
theorem write_today_rows_nodup_witness :
    (([("alice", (⟨"2023-01-02", "2023-01-02T10:00:00", "2023-01-02T10:00:00"⟩ : Record))].map
        Prod.fst).Nodup ∧
      ∀ e ∈ [("alice", (⟨"2023-01-02", "2023-01-02T10:00:00", "2023-01-02T10:00:00"⟩ : Record))],
        (e.2).date = "2023-01-02") ∧
    (((writeSnapshot
        (some [⟨"2023-01-01", "bob", "2023-01-01T09:00:00", "2023-01-01T09:05:00"⟩,
               ⟨"2023-01-02", "alice", "2023-01-02T08:00:00", "2023-01-02T08:00:00"⟩,
               ⟨"2023-01-02", "alice", "2023-01-02T08:30:00", "2023-01-02T08:30:00"⟩])
        [("alice", ⟨"2023-01-02", "2023-01-02T10:00:00", "2023-01-02T10:00:00"⟩)]
        "2023-01-02").filter (fun r => r.date = "2023-01-02")).map Row.name).Nodup :=
  ⟨⟨by decide, by decide⟩,
    write_today_rows_nodup
      (some [⟨"2023-01-01", "bob", "2023-01-01T09:00:00", "2023-01-01T09:05:00"⟩,
             ⟨"2023-01-02", "alice", "2023-01-02T08:00:00", "2023-01-02T08:00:00"⟩,
             ⟨"2023-01-02", "alice", "2023-01-02T08:30:00", "2023-01-02T08:30:00"⟩])
      [("alice", ⟨"2023-01-02", "2023-01-02T10:00:00", "2023-01-02T10:00:00"⟩)]
      "2023-01-02" (by decide) (by decide)⟩

/-- C4: `write_attendance_snapshot` is idempotent on today's rows — writing
the same snapshot twice leaves the file's today-rows exactly as after the
first write, for every prior file state and snapshot. -/
theorem write_idempotent_today (file : Option (List Row)) (att : Snapshot) (today : String) :
    (writeSnapshot (some (writeSnapshot file att today)) att today).filter
        (fun r => r.date = today)
      = (writeSnapshot file att today).filter (fun r => r.date = today) := by
  rw [writeSnapshot_filter_today, writeSnapshot_filter_today]

/-- C5: across any nonempty sequence of writes of today-dated snapshots, every
row dated other than today is retained unchanged (in order, with no extras),
and the today-rows end as exactly the last snapshot's rows. -/
theorem write_seq_history (today : String) :
    ∀ (snaps : List Snapshot), ∀ (hne : snaps ≠ []),
      (∀ s ∈ snaps, ∀ e ∈ s, (e.2).date = today) →
      ∀ file, ∃ final, writeSeq file snaps today = some final ∧
        final.filter (fun r => r.date ≠ today) = (file.getD []).filter (fun r => r.date ≠ today) ∧
        final.filter (fun r => r.date = today) = snapRows (snaps.getLast hne) := by
  intro snaps
  induction snaps with
  | nil => intro hne; exact absurd rfl hne
  | cons s rest ih =>
    intro hne hdates file
    cases rest with
    | nil =>
      refine ⟨writeSnapshot file s today, rfl, ?_, ?_⟩
      · exact writeSnapshot_filter_ne file s today (hdates s (by simp))
      · rw [writeSnapshot_filter_today,
          snapRows_filter_today s today (hdates s (by simp))]
        rfl
    | cons s' rest' =>
      have hne' : s' :: rest' ≠ [] := List.cons_ne_nil s' rest'
      obtain ⟨final, hw, hfne, hfeq⟩ :=
        ih hne' (fun t ht => hdates t (List.mem_cons_of_mem s ht))
          (some (writeSnapshot file s today))
      refine ⟨final, hw, ?_, ?_⟩
      · rw [hfne]
        simp only [Option.getD]
        exact writeSnapshot_filter_ne file s today (hdates s (by simp))
      · rw [hfeq, List.getLast_cons hne']

/-- Witness for C5: one write of an alice snapshot over a file holding a
prior-day bob row: bob's row survives unchanged, today's rows are alice's. -/
theorem write_seq_history_witness :
    (([[("alice", (⟨"2023-01-02", "2023-01-02T10:00:00", "2023-01-02T10:00:00"⟩ : Record))]] :
        List Snapshot) ≠ [] ∧
      ∀ s ∈ ([[("alice",
            (⟨"2023-01-02", "2023-01-02T10:00:00", "2023-01-02T10:00:00"⟩ : Record))]] :
          List Snapshot), ∀ e ∈ s, (e.2).date = "2023-01-02") ∧
    (∃ final,
      writeSeq (some [⟨"2023-01-01", "bob", "2023-01-01T09:00:00", "2023-01-01T09:05:00"⟩])
          [[("alice", ⟨"2023-01-02", "2023-01-02T10:00:00", "2023-01-02T10:00:00"⟩)]]
          "2023-01-02" = some final ∧
        final.filter (fun r => r.date ≠ "2023-01-02")
          = ((some [⟨"2023-01-01", "bob", "2023-01-01T09:00:00", "2023-01-01T09:05:00"⟩]).getD
              []).filter (fun r => r.date ≠ "2023-01-02") ∧
        final.filter (fun r => r.date = "2023-01-02")
          = snapRows [("alice", ⟨"2023-01-02", "2023-01-02T10:00:00", "2023-01-02T10:00:00"⟩)]) :=
  ⟨⟨by decide, by decide⟩,
    write_seq_history "2023-01-02"
      [[("alice", ⟨"2023-01-02", "2023-01-02T10:00:00", "2023-01-02T10:00:00"⟩)]]
      (by decide) (by decide)
      (some [⟨"2023-01-01", "bob", "2023-01-01T09:00:00", "2023-01-01T09:05:00"⟩])⟩

/-! ### Attendance monotonicity lemmas -/

/-- What the name's own entry is after one frame's update. -/
theorem processNames_dictGet_self (att : Snapshot) (name t today : String)
    (hname : name ≠ "Unknown") :
    dictGet (processNames att [name] t today) name
      = some (match dictGet att name with
              | none => ⟨today, t, t⟩
              | some r => if r.first_seen = "" then ⟨today, t, t⟩
                          else ⟨r.date, r.first_seen, t⟩) := by
  rw [processNames_singleton, if_neg hname]
  unfold updateAttendance
  cases dictGet att name with
  | none => rw [dictGet_dictSet]; simp
  | some r => by_cases hr : r.first_seen = "" <;> simp [hr, dictGet_dictSet]

/-- Invariant along a run of frames for one name: from the first frame on, the
entry exists, its first_seen is nonempty and agrees with the first frame's
state, and its last_seen is the latest frame's timestamp. -/
theorem updateSeq_inv (att : Snapshot) (name today : String) (ts : List String)
    (hname : name ≠ "Unknown") (hts : ∀ t ∈ ts, t ≠ "") :
    ∀ i, 1 ≤ i → i ≤ ts.length →
      ∃ r, dictGet (updateSeq att name (ts.take i) today) name = some r ∧
        r.first_seen ≠ "" ∧ r.last_seen = ts.getD (i - 1) "" ∧
        (dictGet (updateSeq att name (ts.take 1) today) name).map Record.first_seen
          = some r.first_seen := by
  intro i hi
  induction i, hi using Nat.le_induction with
  | base =>
    intro hlen
    cases ts with
    | nil => simp at hlen
    | cons t ts' =>
      have ht : t ≠ "" := hts t (by simp)
      rw [show ((t :: ts').take 1) = [t] from rfl]
      rw [show updateSeq att name [t] today = processNames att [name] t today from rfl]
      rw [processNames_dictGet_self att name t today hname]
      cases hc : dictGet att name with
      | none => exact ⟨⟨today, t, t⟩, by simp, ht, by simp, by simp⟩
      | some r =>
        by_cases hr : r.first_seen = ""
        · exact ⟨⟨today, t, t⟩, by simp [hr], ht, by simp, by simp [hr]⟩
        · exact ⟨⟨r.date, r.first_seen, t⟩, by simp [hr], hr, by simp, by simp [hr]⟩
  | succ i hi ih =>
    intro hlen
    have hi' : i < ts.length := hlen
    obtain ⟨r, hr, hfs, hlast, hmap⟩ := ih (le_trans (Nat.le_succ i) hlen)
    have hgetD : ts.getD i "" = ts.get ⟨i, hi'⟩ := by
      rw [List.getD_eq_getElem ts "" hi']
      simp
    have hstep : ts.take (i + 1) = ts.take i ++ [ts.getD i ""] := by
      rw [List.take_succ, List.getElem?_eq_getElem hi']
      rw [hgetD]
      simp
    have hseq : updateSeq att name (ts.take (i + 1)) today
        = processNames (updateSeq att name (ts.take i) today) [name] (ts.getD i "") today := by
      rw [hstep]
      simp [updateSeq, List.foldl_append, processNames]
    rw [hseq, processNames_dictGet_self _ name _ today hname, hr]
    refine ⟨⟨r.date, r.first_seen, ts.getD i ""⟩, by simp [hfs], hfs, by simp, by simp [hmap]⟩

/-- C6: for a fixed name recognized on successive frames of one day with a
non-decreasing clock of nonempty second-resolution timestamps, first_seen
after any update equals first_seen after the first update, and last_seen is
non-decreasing from each update to the next. -/
theorem attendance_monotone (att : Snapshot) (name today : String) (ts : List String)
    (hname : name ≠ "Unknown") (hts : ∀ t ∈ ts, t ≠ "")
    (hchain : ts.Chain' (· ≤ ·)) :
    (∀ i, 1 ≤ i → i ≤ ts.length →
      (dictGet (updateSeq att name (ts.take i) today) name).map Record.first_seen
        = (dictGet (updateSeq att name (ts.take 1) today) name).map Record.first_seen) ∧
    (∀ i, 1 ≤ i → i + 1 ≤ ts.length →
      ∀ r₁ r₂, dictGet (updateSeq att name (ts.take i) today) name = some r₁ →
        dictGet (updateSeq att name (ts.take (i + 1)) today) name = some r₂ →
        r₁.last_seen ≤ r₂.last_seen) := by
  constructor
  · intro i h1 h2
    obtain ⟨r, hr, _, _, hmap⟩ := updateSeq_inv att name today ts hname hts i h1 h2
    rw [hr, hmap]
    simp
  · intro i h1 h2 r₁ r₂ hr₁ hr₂
    obtain ⟨s₁, hs₁, _, hl₁, _⟩ :=
      updateSeq_inv att name today ts hname hts i h1 (le_trans (Nat.le_succ i) h2)
    obtain ⟨s₂, hs₂, _, hl₂, _⟩ :=
      updateSeq_inv att name today ts hname hts (i + 1) (le_trans h1 (Nat.le_succ i)) h2
    rw [hr₁] at hs₁
    rw [hr₂] at hs₂
    obtain rfl : r₁ = s₁ := Option.some.inj hs₁
    obtain rfl : r₂ = s₂ := Option.some.inj hs₂
    rw [hl₁, hl₂]
    have hi1 : i - 1 < ts.length - 1 := by omega
    have hstep := List.chain'_iff_get.mp hchain (i - 1) hi1
    have hidx : i - 1 + 1 = i := by omega
    have hgd₁ : ts.getD (i - 1) "" = ts.get ⟨i - 1, by omega⟩ := by
      rw [List.getD_eq_getElem ts "" (by omega)]
      simp
    have hgd₂ : ts.getD (i + 1 - 1) "" = ts.get ⟨i - 1 + 1, by omega⟩ := by
      rw [List.getD_eq_getElem ts "" (by omega)]
      simp only [List.get_eq_getElem]
      congr 1
      omega
    rw [hgd₁, hgd₂]
    exact hstep

/-- Witness for C6: "carol" seen on two frames of 2023-01-02 with equal
timestamps (a non-decreasing clock), starting from an empty snapshot. -/
theorem attendance_monotone_witness :
    (("carol" : String) ≠ "Unknown" ∧
      (∀ t ∈ (["2023-01-02T10:00:00", "2023-01-02T10:00:00"] : List String), t ≠ "") ∧
      (["2023-01-02T10:00:00", "2023-01-02T10:00:00"] : List String).Chain' (· ≤ ·)) ∧
    ((∀ i, 1 ≤ i → i ≤ (["2023-01-02T10:00:00", "2023-01-02T10:00:00"] : List String).length →
      (dictGet (updateSeq [] "carol"
          ((["2023-01-02T10:00:00", "2023-01-02T10:00:00"] : List String).take i)
          "2023-01-02") "carol").map Record.first_seen
        = (dictGet (updateSeq [] "carol"
            ((["2023-01-02T10:00:00", "2023-01-02T10:00:00"] : List String).take 1)
            "2023-01-02") "carol").map Record.first_seen) ∧
    (∀ i, 1 ≤ i →
        i + 1 ≤ (["2023-01-02T10:00:00", "2023-01-02T10:00:00"] : List String).length →
      ∀ r₁ r₂, dictGet (updateSeq [] "carol"
          ((["2023-01-02T10:00:00", "2023-01-02T10:00:00"] : List String).take i)
          "2023-01-02") "carol" = some r₁ →
        dictGet (updateSeq [] "carol"
            ((["2023-01-02T10:00:00", "2023-01-02T10:00:00"] : List String).take (i + 1))
            "2023-01-02") "carol" = some r₂ →
        r₁.last_seen ≤ r₂.last_seen)) :=
  ⟨⟨by decide, by decide,
      List.chain'_cons.mpr ⟨le_refl _, List.chain'_singleton _⟩⟩,
    attendance_monotone [] "carol" "2023-01-02"
      ["2023-01-02T10:00:00", "2023-01-02T10:00:00"] (by decide) (by decide)
      (List.chain'_cons.mpr ⟨le_refl _, List.chain'_singleton _⟩)⟩

/-! ### Matcher lemmas -/

theorem minL_le (l : List ℚ) : ∀ j, j < l.length → minL l ≤ l.getD j 0 := by
  induction l with
  | nil => intro j hj; simp at hj
  | cons x xs ih =>
    cases xs with
    | nil =>
      intro j hj
      cases j with
      | zero => simp [minL]
      | succ k =>
        simp only [List.length_cons, List.length_nil] at hj
        omega
    | cons y ys =>
      intro j hj
      cases j with
      | zero => simp [minL]
      | succ k =>
        rw [List.getD_cons_succ]
        exact le_trans (min_le_right _ _) (ih k (by simpa using hj))

theorem argmin_lt_length (l : List ℚ) (h : l ≠ []) : argmin l < l.length := by
  induction l with
  | nil => exact absurd rfl h
  | cons x xs ih =>
    cases xs with
    | nil => simp [argmin]
    | cons y ys =>
      rw [argmin]
      by_cases hx : x ≤ minL (y :: ys)
      · simp [hx]
      · simp only [hx, if_false]
        have := ih (List.cons_ne_nil y ys)
        simp only [List.length_cons] at this ⊢
        omega

theorem getD_argmin (l : List ℚ) (h : l ≠ []) : l.getD (argmin l) 0 = minL l := by
  induction l with
  | nil => exact absurd rfl h
  | cons x xs ih =>
    cases xs with
    | nil => simp [argmin, minL]
    | cons y ys =>
      rw [argmin, minL]
      by_cases hx : x ≤ minL (y :: ys)
      · simp [hx, min_eq_left hx]
      · have hlt : minL (y :: ys) ≤ x := le_of_not_le hx
        simp only [hx, if_false]
        rw [List.getD_cons_succ, ih (List.cons_ne_nil y ys), min_eq_right hlt]

theorem argmin_first (l : List ℚ) : ∀ j, j < argmin l → minL l < l.getD j 0 := by
  induction l with
  | nil => intro j hj; simp [argmin] at hj
  | cons x xs ih =>
    cases xs with
    | nil => intro j hj; simp [argmin] at hj
    | cons y ys =>
      intro j hj
      rw [argmin] at hj
      by_cases hx : x ≤ minL (y :: ys)
      · simp [hx] at hj
      · have hlt : minL (y :: ys) < x := lt_of_not_le hx
        simp only [hx, if_false] at hj
        rw [minL, min_eq_right (le_of_lt hlt)]
        cases j with
        | zero => simpa using hlt
        | succ k =>
          rw [List.getD_cons_succ]
          exact ih k (by omega)

/-- The match decision once the gallery is nonempty, in closed form. -/
theorem resolveName_eq {α : Type} (dist : α → α → ℚ) (encs : List α) (labels : List String)
    (q : α) (tol : ℚ) (h : encs ≠ []) :
    resolveName dist encs labels q tol
      = if (galleryDistances dist encs q).getD (argmin (galleryDistances dist encs q)) 0 ≤ tol
        then labels.getD (argmin (galleryDistances dist encs q)) "" else "Unknown" := by
  have hEmpty : encs.isEmpty = false := by
    cases encs with
    | nil => exact absurd rfl h
    | cons a as => rfl
  rw [resolveName, hEmpty]
  rfl

/-- C1: the matcher returns "Unknown" on an empty gallery; on a nonempty
gallery it returns the label at the first index attaining the minimum distance
when that minimum is at or below the tolerance, and "Unknown" when it exceeds
it; hence a returned match has distance at most the tolerance and no gallery
entry is strictly closer. -/
theorem matcher_policy {α : Type} (dist : α → α → ℚ) (encs : List α) (labels : List String)
    (q : α) (tol : ℚ) (hlen : encs.length = labels.length) :
    (encs = [] → resolveName dist encs labels q tol = "Unknown") ∧
    (encs ≠ [] →
      argmin (galleryDistances dist encs q) < encs.length ∧
      (∀ j, j < encs.length →
        (galleryDistances dist encs q).getD (argmin (galleryDistances dist encs q)) 0
          ≤ (galleryDistances dist encs q).getD j 0) ∧
      (∀ j, j < argmin (galleryDistances dist encs q) →
        (galleryDistances dist encs q).getD (argmin (galleryDistances dist encs q)) 0
          < (galleryDistances dist encs q).getD j 0) ∧
      resolveName dist encs labels q tol
        = (if (galleryDistances dist encs q).getD (argmin (galleryDistances dist encs q)) 0 ≤ tol
           then labels.getD (argmin (galleryDistances dist encs q)) ""
           else "Unknown")) ∧
    (resolveName dist encs labels q tol ≠ "Unknown" →
      ∃ i, i < encs.length ∧
        resolveName dist encs labels q tol = labels.getD i "" ∧
        (galleryDistances dist encs q).getD i 0 ≤ tol ∧
        (∀ j, j < encs.length →
          (galleryDistances dist encs q).getD i 0 ≤ (galleryDistances dist encs q).getD j 0)) := by
  have hlen2 : (galleryDistances dist encs q).length = encs.length := by
    simp [galleryDistances]
  refine ⟨?_, ?_, ?_⟩
  · intro h
    subst h
    rfl
  · intro h
    have hgd : galleryDistances dist encs q ≠ [] := by
      simp [galleryDistances, h]
    refine ⟨?_, ?_, ?_, resolveName_eq dist encs labels q tol h⟩
    · rw [← hlen2]
      exact argmin_lt_length _ hgd
    · intro j hj
      rw [getD_argmin _ hgd]
      exact minL_le _ j (by omega)
    · intro j hj
      rw [getD_argmin _ hgd]
      exact argmin_first _ j hj
  · intro hne
    have h : encs ≠ [] := by
      intro h
      subst h
      exact hne rfl
    have hgd : galleryDistances dist encs q ≠ [] := by
      simp [galleryDistances, h]
    have heq := resolveName_eq dist encs labels q tol h
    by_cases hc :
        (galleryDistances dist encs q).getD (argmin (galleryDistances dist encs q)) 0 ≤ tol
    · refine ⟨argmin (galleryDistances dist encs q), ?_, ?_, hc, ?_⟩
      · rw [← hlen2]
        exact argmin_lt_length _ hgd
      · rw [heq, if_pos hc]
      · intro j hj
        rw [getD_argmin _ hgd]
        exact minL_le _ j (by omega)
    · rw [heq, if_neg hc] at hne
      exact absurd rfl hne

/-- Witness for C1: gallery of two descriptors 3 and 7 labelled alice and
bob, query 3, discrete distance, tolerance 0: the first entry matches exactly.
-/
theorem matcher_policy_witness :
    (([(3 : Nat), 7].length = ["alice", "bob"].length) ∧
      resolveName (fun a b => if a = b then (0 : ℚ) else 1) [(3 : Nat), 7] ["alice", "bob"] 3 0
        = "alice") ∧
    ((([(3 : Nat), 7] : List Nat) = [] →
        resolveName (fun a b => if a = b then (0 : ℚ) else 1) [(3 : Nat), 7] ["alice", "bob"] 3 0
          = "Unknown") ∧
      (([(3 : Nat), 7] : List Nat) ≠ [] →
        argmin (galleryDistances (fun a b => if a = b then (0 : ℚ) else 1) [(3 : Nat), 7] 3)
            < [(3 : Nat), 7].length ∧
        (∀ j, j < [(3 : Nat), 7].length →
          (galleryDistances (fun a b => if a = b then (0 : ℚ) else 1) [(3 : Nat), 7] 3).getD
              (argmin (galleryDistances (fun a b => if a = b then (0 : ℚ) else 1)
                [(3 : Nat), 7] 3)) 0
            ≤ (galleryDistances (fun a b => if a = b then (0 : ℚ) else 1)
                [(3 : Nat), 7] 3).getD j 0) ∧
        (∀ j, j < argmin (galleryDistances (fun a b => if a = b then (0 : ℚ) else 1)
            [(3 : Nat), 7] 3) →
          (galleryDistances (fun a b => if a = b then (0 : ℚ) else 1) [(3 : Nat), 7] 3).getD
              (argmin (galleryDistances (fun a b => if a = b then (0 : ℚ) else 1)
                [(3 : Nat), 7] 3)) 0
            < (galleryDistances (fun a b => if a = b then (0 : ℚ) else 1)
                [(3 : Nat), 7] 3).getD j 0) ∧
        resolveName (fun a b => if a = b then (0 : ℚ) else 1) [(3 : Nat), 7] ["alice", "bob"] 3 0
          = (if (galleryDistances (fun a b => if a = b then (0 : ℚ) else 1)
                [(3 : Nat), 7] 3).getD
                (argmin (galleryDistances (fun a b => if a = b then (0 : ℚ) else 1)
                  [(3 : Nat), 7] 3)) 0 ≤ 0
             then ["alice", "bob"].getD
                (argmin (galleryDistances (fun a b => if a = b then (0 : ℚ) else 1)
                  [(3 : Nat), 7] 3)) ""
             else "Unknown")) ∧
      (resolveName (fun a b => if a = b then (0 : ℚ) else 1) [(3 : Nat), 7] ["alice", "bob"] 3 0
          ≠ "Unknown" →
        ∃ i, i < [(3 : Nat), 7].length ∧
          resolveName (fun a b => if a = b then (0 : ℚ) else 1) [(3 : Nat), 7]
              ["alice", "bob"] 3 0
            = ["alice", "bob"].getD i "" ∧
          (galleryDistances (fun a b => if a = b then (0 : ℚ) else 1) [(3 : Nat), 7] 3).getD i 0
            ≤ 0 ∧
          (∀ j, j < [(3 : Nat), 7].length →
            (galleryDistances (fun a b => if a = b then (0 : ℚ) else 1)
                [(3 : Nat), 7] 3).getD i 0
              ≤ (galleryDistances (fun a b => if a = b then (0 : ℚ) else 1)
                  [(3 : Nat), 7] 3).getD j 0))) :=
  ⟨⟨by decide, by decide⟩,
    matcher_policy (fun a b => if a = b then (0 : ℚ) else 1) [(3 : Nat), 7] ["alice", "bob"] 3 0
      (by decide)⟩

/-! ### Gallery builder lemmas -/

/-- The loading fold skips every image with no detected face or no encoding. -/
theorem loadFold_skip {α β γ : Type} (detect : α → Nat → String → List γ)
    (encode : α → List γ → List β) :
    ∀ (imgs : List (ImageFile α)) (acc : List β × List String),
      (∀ img ∈ imgs,
        detect img.image 1 "hog" = [] ∨ encode img.image (detect img.image 1 "hog") = []) →
      imgs.foldl
          (fun (acc : List β × List String) img =>
            let locs := detect img.image 1 "hog"
            if locs.isEmpty then acc
            else
              match encode img.image locs with
              | [] => acc
              | e :: _ => (acc.1 ++ [e], acc.2 ++ [extractLabel img]))
          acc = acc := by
  intro imgs
  induction imgs with
  | nil => intro acc _; rfl
  | cons img rest ih =>
    intro acc hno
    rw [List.foldl_cons]
    have hstep :
        (let locs := detect img.image 1 "hog"
         if locs.isEmpty then acc
         else
           match encode img.image locs with
           | [] => acc
           | e :: _ => (acc.1 ++ [e], acc.2 ++ [extractLabel img])) = acc := by
      rcases hno img (by simp) with h | h
      · simp [h]
      · by_cases hl : (detect img.image 1 "hog").isEmpty
        · simp [hl]
        · simp only [hl, if_false, Bool.false_eq_true]
          rw [h]
    rw [hstep]
    exact ih acc (fun i hi => hno i (List.mem_cons_of_mem img hi))

/-- C8: a missing gallery directory is created and yields empty descriptor and
label sequences without an error; an existing directory none of whose images
is usable (no detected face, or no encoding) also yields empty sequences, and
the function returns normally in both cases. -/
theorem gallery_empty_cases {α β γ : Type} (detect : α → Nat → String → List γ)
    (encode : α → List γ → List β) (fs : GalleryFS α)
    (hno : ∀ img ∈ fs.images,
      detect img.image 1 "hog" = [] ∨ encode img.image (detect img.image 1 "hog") = []) :
    (fs.dirExists = false → loadKnownFaces detect encode fs = (⟨true, []⟩, [], [])) ∧
    (fs.dirExists = true → loadKnownFaces detect encode fs = (fs, [], [])) := by
  constructor
  · intro h
    rw [loadKnownFaces, h]
    rfl
  · intro h
    rw [loadKnownFaces, h]
    simp only [Bool.true_eq_false, if_false]
    by_cases himg : fs.images.isEmpty
    · rw [if_pos himg]
    · rw [if_neg himg]
      rw [loadFold_skip detect encode fs.images ([], []) hno]

/-- Witness for C8: a directory holding one image in which the detector finds
no face; the gallery comes back empty. -/
theorem gallery_empty_cases_witness :
    ((∀ img ∈ (GalleryFS.mk true [⟨["alice", "one.jpg"], "one", (0 : Nat)⟩]).images,
        (fun (_ : Nat) (_ : Nat) (_ : String) => ([] : List Nat)) img.image 1 "hog" = [] ∨
        (fun (_ : Nat) (_ : List Nat) => ([] : List Nat)) img.image
            ((fun (_ : Nat) (_ : Nat) (_ : String) => ([] : List Nat)) img.image 1 "hog")
          = []) ∧
    (((GalleryFS.mk true [⟨["alice", "one.jpg"], "one", (0 : Nat)⟩]).dirExists = false →
        loadKnownFaces (fun (_ : Nat) (_ : Nat) (_ : String) => ([] : List Nat))
            (fun (_ : Nat) (_ : List Nat) => ([] : List Nat))
            (GalleryFS.mk true [⟨["alice", "one.jpg"], "one", (0 : Nat)⟩])
          = (⟨true, []⟩, [], [])) ∧
      ((GalleryFS.mk true [⟨["alice", "one.jpg"], "one", (0 : Nat)⟩]).dirExists = true →
        loadKnownFaces (fun (_ : Nat) (_ : Nat) (_ : String) => ([] : List Nat))
            (fun (_ : Nat) (_ : List Nat) => ([] : List Nat))
            (GalleryFS.mk true [⟨["alice", "one.jpg"], "one", (0 : Nat)⟩])
          = (GalleryFS.mk true [⟨["alice", "one.jpg"], "one", (0 : Nat)⟩], [], [])))) :=
  ⟨fun img _ => Or.inl rfl,
    gallery_empty_cases (fun (_ : Nat) (_ : Nat) (_ : String) => ([] : List Nat))
      (fun (_ : Nat) (_ : List Nat) => ([] : List Nat))
      (GalleryFS.mk true [⟨["alice", "one.jpg"], "one", (0 : Nat)⟩])
      (fun img _ => Or.inl rfl)⟩

/-- C10: gallery construction consults the detector only at the "hog" model
variant — two detectors agreeing at "hog" build identical galleries — and the
startup invocation yields the same gallery for any two configured model
values. -/
theorem gallery_hog_independent {α β γ : Type} :
    (∀ (d₁ d₂ : α → Nat → String → List γ) (encode : α → List γ → List β)
        (fs : GalleryFS α),
      (∀ a n, d₁ a n "hog" = d₂ a n "hog") →
      loadKnownFaces d₁ encode fs = loadKnownFaces d₂ encode fs) ∧
    (∀ (detect : α → Nat → String → List γ) (encode : α → List γ → List β)
        (cfg : Config) (m₁ m₂ : String) (fs : GalleryFS α),
      startupGallery detect encode { cfg with model := m₁ } fs
        = startupGallery detect encode { cfg with model := m₂ } fs) := by
  constructor
  · intro d₁ d₂ encode fs h
    rw [loadKnownFaces, loadKnownFaces]
    by_cases hd : fs.dirExists = false
    · rw [if_pos hd, if_pos hd]
    · rw [if_neg hd, if_neg hd]
      by_cases himg : fs.images.isEmpty
      · rw [if_pos himg, if_pos himg]
      · rw [if_neg himg, if_neg himg]
        have hfold :
            fs.images.foldl
                (fun (acc : List β × List String) img =>
                  let locs := d₁ img.image 1 "hog"
                  if locs.isEmpty then acc
                  else
                    match encode img.image locs with
                    | [] => acc
                    | e :: _ => (acc.1 ++ [e], acc.2 ++ [extractLabel img]))
                ([], [])
              = fs.images.foldl
                  (fun (acc : List β × List String) img =>
                    let locs := d₂ img.image 1 "hog"
                    if locs.isEmpty then acc
                    else
                      match encode img.image locs with
                      | [] => acc
                      | e :: _ => (acc.1 ++ [e], acc.2 ++ [extractLabel img]))
                  ([], []) := by
          refine List.foldl_ext _ _ _ ?_
          intro acc img _
          simp only [h]
        rw [hfold]
  · intro detect encode cfg m₁ m₂ fs
    rfl

end FRAS
